/-
Verification of the x402 discovery sync engine (fetch_discovery.py and the
identical detect_tags in backfill_tags.py), via a shallow embedding in Lean 4.

Python strings are modelled as Lean `String`s, operated on through their
`List Char` code-point sequences, which matches Python's code-point string
semantics (comparison, containment, lowercasing restricted to ASCII, which
covers all data handled by the claims).  Python floats are modelled as exact
rationals (ℚ).  Python `dict`s (which preserve insertion order) are modelled
as association lists where updates happen in place and new keys append.
-/
import Mathlib

namespace X402

/-! ### String primitives (Python semantics on code points) -/

/-- `pfx a b`: `a` is a prefix of `b` (code-point lists). -/
def pfx : List Char → List Char → Bool
  | [], _ => true
  | _ :: _, [] => false
  | a :: as, b :: bs => a = b && pfx as bs

/-- `hasSub needle hay`: Python `needle in hay` (substring containment). -/
def hasSub (needle : List Char) : List Char → Bool
  | [] => pfx needle []
  | c :: t => pfx needle (c :: t) || hasSub needle t

/-- `sfx a b`: `b` ends with `a` (Python `str.endswith`). -/
def sfx (a b : List Char) : Bool :=
  pfx a.reverse b.reverse

/-- Strict lexicographic order on code-point lists: Python `a < b` on strings. -/
def strLtCL : List Char → List Char → Bool
  | [], [] => false
  | [], _ :: _ => true
  | _ :: _, [] => false
  | a :: as, b :: bs =>
    if a.val < b.val then true
    else if b.val < a.val then false
    else strLtCL as bs

/-- Python `a > b` on strings. -/
def strGt (a b : String) : Bool := strLtCL b.data a.data

/-- ASCII lowercasing of one code point (Python `str.lower` on ASCII data). -/
def lowCh (c : Char) : Char :=
  if 65 ≤ c.toNat ∧ c.toNat ≤ 90 then Char.ofNat (c.toNat + 32) else c

/-- Lowercased code points of a string: Python `s.lower()` on ASCII data. -/
def pyLower (s : String) : List Char := s.data.map lowCh

/-! ### Configuration constants (verbatim from fetch_discovery.py) -/

/-- `TESTNET_PATTERNS` from the source. -/
def TESTNET_PATTERNS : List String :=
  ["-sepolia", "-testnet", "goerli", "mumbai",
   "holesky", "-devnet", "sepolia", "testnet"]

/-- `HOSTING_DOMAINS` from the source. -/
def HOSTING_DOMAINS : List String :=
  [".vercel.app", ".netlify.app", ".render.com", ".onrender.com",
   ".herokuapp.com", ".railway.app", ".fly.dev", ".replit.dev",
   ".glitch.me", ".surge.sh", ".pages.dev", ".workers.dev",
   ".nx.link", "localhost"]

/-- `TAG_KEYWORDS` from the source (an insertion-ordered dict; identical table
in backfill_tags.py). -/
def TAG_KEYWORDS : List (String × List String) :=
  [("ai_agent",
    ["agent", "swarm", "autonomous", "workflow", "assistant", "bot",
     "eliza", "virtuals", "daydreams", "ai-agent", "aiagent"]),
   ("llm_inference",
    ["llm", "gpt", "claude", "gemini", "inference", "completion", "chat",
     "openai", "anthropic", "mistral", "llama", "generate"]),
   ("blockchain_data",
    ["onchain", "on-chain", "token-info", "dex-data", "chain-data",
     "blockchain", "transaction", "block", "address", "balance"]),
   ("trading",
    ["trade", "trading", "swap", "dex", "exchange", "market", "price",
     "order", "quote", "liquidity"]),
   ("nft",
    ["nft", "collectible", "mint", "metadata", "opensea", "collection"]),
   ("payment",
    ["payment", "pay", "transfer", "usdc", "send", "receive", "wallet"]),
   ("social_media",
    ["twitter", "social", "tweet", "post", "farcaster", "lens", "x.com",
     "analytics", "follower"]),
   ("developer_tools",
    ["sdk", "api", "developer", "tool", "utility", "webhook", "rpc",
     "endpoint", "integration"]),
   ("content",
    ["media", "image", "video", "article", "content", "generate-image",
     "text-to", "image-to"]),
   ("security",
    ["security", "risk", "compliance", "audit", "verify", "kyc", "aml"])]

/-- `USDC_ADDRESSES` from the source. -/
def USDC_ADDRESSES : List (String × String) :=
  [("base", "0x833589fCD6eDb6E08f4c7C32D4f71b54bdA02913"),
   ("solana", "EPjFWdd5AufqSSqeM2qN1xzybapC8G4wEGGkZwyTDt1v")]

/-! ### Testnet / hosting predicates (fetch_discovery.py lines 157-169) -/

/-- `is_testnet(network)`: empty name is falsy and yields False; otherwise any
testnet pattern contained in the lowercased name. -/
def is_testnet (network : String) : Bool :=
  if network.data.isEmpty then false
  else TESTNET_PATTERNS.any fun pattern => hasSub pattern.data (pyLower network)

/-- `is_hosting_domain(domain)`: empty domain is falsy and yields True;
otherwise any hosting entry contained (Python `in`, i.e. substring) in the
lowercased domain. -/
def is_hosting_domain (domain : String) : Bool :=
  if domain.data.isEmpty then true
  else HOSTING_DOMAINS.any fun host => hasSub host.data (pyLower domain)

/-! ### Auto-tagging (fetch_discovery.py lines 237-250, backfill_tags.py 79-92) -/

/-- The text scanned by `detect_tags`: `f"{resource_url} {description}".lower()`. -/
def tagText (resource_url description : String) : List Char :=
  (resource_url.data ++ ' ' :: description.data).map lowCh

/-- `detect_tags(resource_url, description)`: every category whose keyword list
has a member contained in the text, in table order; `["other"]` if none. -/
def detect_tags (resource_url : String) (description : String) : List String :=
  let text := tagText resource_url description
  let tags := (TAG_KEYWORDS.filter fun p => p.2.any fun kw => hasSub kw.data text).map
    Prod.fst
  if tags.isEmpty then ["other"] else tags

/-! ### Deduplication (fetch_discovery.py lines 209-231)

A raw listing, for the purposes of the deduplicator: `item.get('resource','')`
and `item.get('lastUpdated','')` are read (missing fields default to `""`),
and the item is stored whole; `payload` stands for the rest of the item. -/

structure Item where
  resource : String
  lastUpdated : String
  payload : String
  deriving DecidableEq

/-- One `seen[resource_url] = item` step on the insertion-ordered dict `seen`:
replace in place the first (unique) binding of the key when the new item's
`lastUpdated` is strictly greater, append a fresh key at the end. -/
def updateSeen : List (String × Item) → String → Item → List (String × Item)
  | [], url, item => [(url, item)]
  | (u, existing) :: rest, url, item =>
    if u = url then
      if strGt item.lastUpdated existing.lastUpdated then (u, item) :: rest
      else (u, existing) :: rest
    else (u, existing) :: updateSeen rest url item

/-- The `for item in all_items` loop of `deduplicate_resources`: items whose
`resource` is missing or empty (falsy) are skipped. -/
def dedupLoop : List (String × Item) → List Item → List (String × Item)
  | seen, [] => seen
  | seen, item :: rest =>
    if item.resource = "" then dedupLoop seen rest
    else dedupLoop (updateSeen seen item.resource item) rest

/-- `deduplicate_resources(all_items)`: `list(seen.values())`. -/
def deduplicate_resources (all_items : List Item) : List Item :=
  (dedupLoop [] all_items).map Prod.snd

/-- The spec's pairwise selection rule: keep the later listing exactly when its
`lastUpdated` string compares greater; ties keep the first-seen one. -/
def keepNewer (a b : Item) : Item :=
  if strGt b.lastUpdated a.lastUpdated then b else a

/-- Accumulate one more listing into the per-URL selection. -/
def pickStep (acc : Option Item) (it : Item) : Option Item :=
  match acc with
  | none => some it
  | some a => some (keepNewer a it)

/-- The spec's per-URL winner: fold `keepNewer` over the listings carrying the
URL, first-seen listing as the starting point. -/
def winner (url : String) (l : List Item) : Option Item :=
  (l.filter fun it => it.resource == url).foldl pickStep none

/-- First-match association lookup, as Python dict indexing. -/
def lookupKey : List (String × Item) → String → Option Item
  | [], _ => none
  | (u, it) :: rest, url => if u = url then some it else lookupKey rest url

/-! ### Transfer validation (fetch_discovery.py lines 782-793)

Amounts and prices are Python floats in the source; they are modelled as
exact rationals, so `0.9` and `1.1` are the exact constants `9/10`, `11/10`. -/

/-- `is_valid_x402_transfer(amount, expected_prices)`: some price is positive
and `price * 0.9 <= amount <= price * 1.1`. -/
def is_valid_x402_transfer (amount : ℚ) (expected_prices : List ℚ) : Bool :=
  expected_prices.any fun price =>
    if price ≤ 0 then false
    else decide (price * (9 / 10) ≤ amount ∧ amount ≤ price * (11 / 10))

/-! ### Python `int(...)` on strings, and the accept-row mapper
(fetch_discovery.py lines 602-639) -/

/-- ASCII decimal digit. -/
def isPyDigit (c : Char) : Bool := 48 ≤ c.toNat && c.toNat ≤ 57

/-- ASCII whitespace stripped by Python `int(str)`. -/
def isPySpace (c : Char) : Bool :=
  c = ' ' || c = '\t' || c = '\n' || c = '\x0d' || c = '\x0b' || c = '\x0c'

/-- Digit value. -/
def digitVal (c : Char) : Nat := c.toNat - 48

/-- Continue parsing a digit string after at least one digit: further digits,
or single underscores that must sit between digits (Python numeric literals
accepted by `int`). -/
def parseDigitsCore (acc : Nat) : List Char → Option Nat
  | [] => some acc
  | c :: rest =>
    if isPyDigit c then parseDigitsCore (acc * 10 + digitVal c) rest
    else if c = '_' then
      match rest with
      | [] => none
      | d :: rest2 =>
        if isPyDigit d then parseDigitsCore (acc * 10 + digitVal d) rest2
        else none
    else none

/-- A nonempty digit string with optional internal underscores. -/
def parseDigits : List Char → Option Nat
  | [] => none
  | c :: rest => if isPyDigit c then parseDigitsCore (digitVal c) rest else none

/-- Strip leading and trailing whitespace. -/
def stripWs (l : List Char) : List Char :=
  ((l.dropWhile isPySpace).reverse.dropWhile isPySpace).reverse

/-- Python `int(s)` for a decimal string: optional surrounding whitespace,
optional sign, nonempty digits with optional internal underscores; `none`
models the `ValueError`. -/
def pyInt (s : String) : Option Int :=
  match stripWs s.data with
  | '+' :: rest => (parseDigits rest).map Int.ofNat
  | '-' :: rest => (parseDigits rest).map fun n => -(n : Int)
  | l => (parseDigits l).map Int.ofNat

/-- The scalar fields of one entry of the listing's accept list that feed the
accept row; optional fields model JSON keys that may be absent or empty
(`extraName` is `extra.get('name')` with the surrounding `or {}` defaulting). -/
structure AcceptIn where
  scheme : Option String
  network : Option String
  asset : Option String
  payTo : Option String
  maxAmountRequired : Option String
  maxTimeoutSeconds : Option Nat
  extraName : Option String
  deriving DecidableEq

/-- The scalar columns of the row written to the `accepts` table. -/
structure AcceptRow where
  scheme : String
  network : String
  asset : String
  asset_name : Option String
  pay_to : String
  max_amount_required : String
  max_timeout_seconds : Nat
  price_usd : Option ℚ
  deriving DecidableEq

/-- `accept.get(key, default)` for string fields. -/
def pyGetStr (o : Option String) (d : String) : String := o.getD d

/-- The `asset_name` derivation: a truthy `extra['name']` wins; otherwise
"USDC" when the asset string contains "usdc" case-insensitively or is a known
USDC contract/mint address. -/
def deriveAssetName (a : AcceptIn) : Option String :=
  match a.extraName with
  | some n =>
    if n ≠ "" then some n
    else
      if hasSub "usdc".data (pyLower (pyGetStr a.asset "")) ||
          (USDC_ADDRESSES.map Prod.snd).contains (pyGetStr a.asset "") then
        some "USDC"
      else none
  | none =>
    if hasSub "usdc".data (pyLower (pyGetStr a.asset "")) ||
        (USDC_ADDRESSES.map Prod.snd).contains (pyGetStr a.asset "") then
      some "USDC"
    else none

/-- Building `accept_data` inside `upsert_to_supabase`: defaults mirror the
source's `.get` calls, and `price_usd` is set to
`int(maxAmountRequired) / 1_000_000` when the parse succeeds, left unset when
it raises (`except: pass`); the row itself is produced either way. -/
def buildAcceptRow (a : AcceptIn) : AcceptRow :=
  let base : AcceptRow :=
    { scheme := pyGetStr a.scheme "exact"
      network := pyGetStr a.network ""
      asset := pyGetStr a.asset ""
      asset_name := deriveAssetName a
      pay_to := pyGetStr a.payTo ""
      max_amount_required := pyGetStr a.maxAmountRequired "0"
      max_timeout_seconds := a.maxTimeoutSeconds.getD 300
      price_usd := none }
  match pyInt (pyGetStr a.maxAmountRequired "0") with
  | some n => { base with price_usd := some ((n : ℚ) / 1000000) }
  | none => base

/-! ### Traction reconciliation (fetch_discovery.py lines 914-1009)

`get_base_traction` / `get_solana_traction` are network calls; their results
are the oracle inputs here: one `Traction` per distinct payee address queried
on that network, in query order.  The per-origin body of
`sync_traction_for_all_origins` is embedded as a pure function of the origin
row, its expected prices, and those per-address results. -/

/-- The `{tx_count, volume, buyers, last_tx}` result of one traction fetch. -/
structure Traction where
  tx_count : Nat
  volume : ℚ
  buyers : List String
  last_tx : Option String
  deriving DecidableEq

/-- The aggregation state `(total_tx, total_vol, all_buyers, last_tx)`;
`buyers` is a duplicate-free list standing for the Python set. -/
structure Agg where
  tx : Nat
  vol : ℚ
  buyers : List String
  last : Option String
  deriving DecidableEq

/-- `all_buyers.update(bs)`: set union, keeping the accumulator duplicate-free. -/
def addBuyers (acc : List String) (bs : List String) : List String :=
  bs.foldl (fun a b => if b ∈ a then a else a ++ [b]) acc

/-- `if t["last_tx"] and (not last_tx or t["last_tx"] > last_tx)`: empty
strings and `None` are falsy. -/
def updLast (cur : Option String) (t : Option String) : Option String :=
  match t with
  | none => cur
  | some ts =>
    if ts = "" then cur
    else
      match cur with
      | none => some ts
      | some c => if c = "" ∨ strGt ts c then some ts else cur

/-- Accumulate one address's traction result. -/
def stepAgg (s : Agg) (t : Traction) : Agg :=
  { tx := s.tx + t.tx_count
    vol := s.vol + t.volume
    buyers := addBuyers s.buyers t.buyers
    last := updLast s.last t.last_tx }

/-- The run's aggregate over both networks: each network's per-address results
are folded in only when that network's API key is configured. -/
def aggTraction (hasAlchemy hasHelius : Bool) (baseTr solTr : List Traction) : Agg :=
  let s0 : Agg := ⟨0, 0, [], none⟩
  let s1 := if hasAlchemy then baseTr.foldl stepAgg s0 else s0
  if hasHelius then solTr.foldl stepAgg s1 else s1

/-- An origin row: `domain` stands for all columns outside the traction
rollup; the five rollup columns are optional (possibly never yet written). -/
structure OriginRow where
  domain : String
  total_transactions : Option Nat
  total_volume_usd : Option ℚ
  unique_buyers : Option Nat
  last_transaction_at : Option String
  traction_updated_at : Option String
  deriving DecidableEq

/-- The per-origin body of `sync_traction_for_all_origins`: skip when the
expected-price set is empty; otherwise aggregate and write the rollup only
when the aggregate transaction count is positive, leaving the row untouched
otherwise.  `now` is the wall-clock timestamp written to
`traction_updated_at`. -/
def reconcileOrigin (hasAlchemy hasHelius : Bool) (expected_prices : List ℚ)
    (baseTr solTr : List Traction) (now : String) (origin : OriginRow) : OriginRow :=
  if expected_prices.isEmpty then origin
  else
    let a := aggTraction hasAlchemy hasHelius baseTr solTr
    if 0 < a.tx then
      { origin with
        total_transactions := some a.tx
        total_volume_usd := some a.vol
        unique_buyers := some a.buyers.length
        last_transaction_at := a.last
        traction_updated_at := some now }
    else origin

/-! ### Paginated fetch with retries (fetch_discovery.py lines 372-450)

The network is an oracle giving the response to the n-th HTTP request of the
facilitator; a successful response carries the page's item list after the
body-shape normalization (plain array / `items` / `resources` / `data.items`).
`urlparse(resource).netloc` is a Python library call, abstracted as the
`netloc` parameter.  The recursion carries fuel counting the requests still
allowed; `none` means the function has not returned within that many
requests, so `= none` for every fuel is non-termination. -/

/-- One entry of a raw listing's accept list, as the fetch filter reads it. -/
structure FAccept where
  network : String
  deriving DecidableEq

/-- A raw listing as the fetch loop manipulates it. -/
structure RawItem where
  resource : String
  accepts : List FAccept
  deriving DecidableEq

/-- `filter_accepts(accepts)` (fetch_discovery.py lines 201-203). -/
def filter_accepts (accepts : List FAccept) : List FAccept :=
  accepts.filter fun a => !is_testnet a.network

/-- The per-item body of the page loop: drop hosting-platform resources, then
drop items whose accept list is empty or becomes empty after testnet
filtering, keeping the filtered accepts otherwise. -/
def processItem (netloc : String → String) (item : RawItem) : Option RawItem :=
  if item.resource ≠ "" && is_hosting_domain (netloc item.resource) then none
  else if !item.accepts.isEmpty then
    let filtered := filter_accepts item.accepts
    if filtered.isEmpty then none else some { item with accepts := filtered }
  else none

/-- A facilitator's response to one request. -/
inductive PageResp where
  | ok (items : List RawItem)
  | http (code : Nat)
  | exc
  deriving DecidableEq

/-- The `while True` / `for retry in range(max_retries)` loops of
`fetch_with_pagination`, state `(reqIdx, offset, all_items, retry)`:

* a page with no items, or with fewer raw items than `limit`, returns the
  accumulated items;
* a full page advances `offset` and re-enters the retry loop at `retry = 0`;
* HTTP 429 sleeps and moves to the next retry iteration — and when the retry
  loop is exhausted the `while` loop re-enters it on the same page with the
  counter reset (the source's 429 branch has no return);
* any other HTTP error or exception returns the accumulated items on the last
  retry and otherwise moves to the next retry iteration. -/
def fetchGo (netloc : String → String) (oracle : Nat → PageResp)
    (limit max_retries : Nat) :
    Nat → Nat → Nat → List RawItem → Nat → Option (List RawItem)
  | 0, _, _, _, _ => none
  | fuel + 1, reqIdx, offset, acc, retry =>
    match oracle reqIdx with
    | .ok items =>
      if items.isEmpty then some acc
      else
        let acc2 := acc ++ items.filterMap (processItem netloc)
        if items.length < limit then some acc2
        else fetchGo netloc oracle limit max_retries fuel (reqIdx + 1) (offset + limit) acc2 0
    | .http code =>
      if code = 429 then
        if retry + 1 < max_retries then
          fetchGo netloc oracle limit max_retries fuel (reqIdx + 1) offset acc (retry + 1)
        else
          fetchGo netloc oracle limit max_retries fuel (reqIdx + 1) offset acc 0
      else
        if retry = max_retries - 1 then some acc
        else fetchGo netloc oracle limit max_retries fuel (reqIdx + 1) offset acc (retry + 1)
    | .exc =>
      if retry = max_retries - 1 then some acc
      else fetchGo netloc oracle limit max_retries fuel (reqIdx + 1) offset acc (retry + 1)

/-- `fetch_with_pagination(url, name)` with the source's default
`limit = 100`, `max_retries = 3`, allowed `fuel` many requests. -/
def fetch_with_pagination (netloc : String → String) (oracle : Nat → PageResp)
    (fuel : Nat) : Option (List RawItem) :=
  fetchGo netloc oracle 100 3 fuel 0 0 [] 0

/-- A facilitator that answers HTTP 429 to every request. -/
def always429 : Nat → PageResp := fun _ => .http 429

/-! ## Theorems -/

/-! ### C2: hosting-domain classification -/

/-- Claim C2 counterexample: `is_hosting_domain` is not suffix matching.  The
host `x.vercel.app.attacker.com` contains the entry `.vercel.app` only as an
interior substring — it ends with no entry of the list — yet it is classified
as a hosting domain, refuting the claimed "ends with" equivalence. -/
theorem hosting_domain_suffix_claim_false :
    is_hosting_domain "x.vercel.app.attacker.com" = true ∧
    HOSTING_DOMAINS.all
      (fun h => !(sfx h.data (pyLower "x.vercel.app.attacker.com"))) = true := by
  decide

/-- Claim C2 (amended): `is_hosting_domain host` is true iff the host is empty
(falsy hosts are treated as hosting domains) or its lowercased form contains
one of the fixed hosting-platform entries as a substring anywhere, not only as
a suffix. -/
theorem is_hosting_domain_iff (domain : String) :
    is_hosting_domain domain = true ↔
      domain.data = [] ∨
        ∃ h ∈ HOSTING_DOMAINS, hasSub h.data (pyLower domain) = true := by
  by_cases he : domain.data.isEmpty
  · have hd : domain.data = [] := List.isEmpty_iff.mp he
    simp [is_hosting_domain, he, hd]
  · have hd : domain.data ≠ [] := fun h => he (List.isEmpty_iff.mpr h)
    simp [is_hosting_domain, he, hd, List.any_eq_true]

/-! ### C3: transfer-amount validation -/

/-- The loop body of `is_valid_x402_transfer` holds exactly for a positive
price whose ±10% band contains the amount. -/
theorem valid_body_iff (a p : ℚ) :
    (if p ≤ 0 then false
     else decide (p * (9 / 10) ≤ a ∧ a ≤ p * (11 / 10))) = true ↔
      0 < p ∧ p * (9 / 10) ≤ a ∧ a ≤ p * (11 / 10) := by
  by_cases h : p ≤ 0
  · simp [h, not_lt.mpr h]
  · have h0 : 0 < p := not_le.mp h
    simp [h, h0]

/-- Claim C3: `is_valid_x402_transfer a ps` is true iff some price `p ∈ ps` is
positive with `p * 0.9 ≤ a ≤ p * 1.1`, and for every positive `p ∈ ps` both
boundary amounts `p * 0.9` and `p * 1.1` are accepted. -/
theorem is_valid_transfer_spec (a : ℚ) (ps : List ℚ) :
    (is_valid_x402_transfer a ps = true ↔
      ∃ p ∈ ps, 0 < p ∧ p * (9 / 10) ≤ a ∧ a ≤ p * (11 / 10)) ∧
    (∀ p ∈ ps, 0 < p →
      is_valid_x402_transfer (p * (9 / 10)) ps = true ∧
      is_valid_x402_transfer (p * (11 / 10)) ps = true) := by
  constructor
  · unfold is_valid_x402_transfer
    rw [List.any_eq_true]
    constructor
    · rintro ⟨p, hp, hbody⟩
      exact ⟨p, hp, (valid_body_iff a p).mp hbody⟩
    · rintro ⟨p, hp, hbody⟩
      exact ⟨p, hp, (valid_body_iff a p).mpr hbody⟩
  · intro p hp h0
    constructor
    · unfold is_valid_x402_transfer
      rw [List.any_eq_true]
      refine ⟨p, hp, (valid_body_iff _ p).mpr ⟨h0, le_refl _, ?_⟩⟩
      linarith
    · unfold is_valid_x402_transfer
      rw [List.any_eq_true]
      refine ⟨p, hp, (valid_body_iff _ p).mpr ⟨h0, ?_, le_refl _⟩⟩
      linarith

/-- Claim C3 witness: a `$2.10` transfer against the expected price `$2.00`. -/
theorem is_valid_transfer_spec_witness :
    (is_valid_x402_transfer (21 / 10) [2] = true ↔
      ∃ p ∈ ([2] : List ℚ), 0 < p ∧ p * (9 / 10) ≤ 21 / 10 ∧ 21 / 10 ≤ p * (11 / 10)) ∧
    (is_valid_x402_transfer (2 * (9 / 10)) [2] = true ∧
      is_valid_x402_transfer (2 * (11 / 10)) [2] = true) :=
  ⟨(is_valid_transfer_spec (21 / 10) [2]).1,
   (is_valid_transfer_spec (21 / 10) [2]).2 2 (by decide) (by decide)⟩

/-! ### C7: testnet detection -/

/-- Claim C7: any network name whose lowercased form contains a pattern of the
fixed testnet list is classified as a testnet, and the mainnet names "base",
"solana", "polygon" are not. -/
theorem is_testnet_spec :
    (∀ p ∈ TESTNET_PATTERNS, ∀ s : String,
      hasSub p.data (pyLower s) = true → is_testnet s = true) ∧
    is_testnet "base" = false ∧ is_testnet "solana" = false ∧
    is_testnet "polygon" = false := by
  refine ⟨?_, by decide, by decide, by decide⟩
  intro p hp s hsub
  by_cases he : s.data.isEmpty
  · exfalso
    have hd : s.data = [] := List.isEmpty_iff.mp he
    have hlow : pyLower s = [] := by simp [pyLower, hd]
    rw [hlow] at hsub
    have hpne : p.data ≠ [] := by
      have hall : ∀ q ∈ TESTNET_PATTERNS, q.data ≠ [] := by decide
      exact hall p hp
    cases hq : p.data with
    | nil => exact hpne hq
    | cons c t => rw [hq] at hsub; simp [hasSub, pfx] at hsub
  · simp only [is_testnet, he, if_false, Bool.false_eq_true]
    rw [List.any_eq_true]
    exact ⟨p, hp, hsub⟩

/-- Claim C7 witness: the pattern "goerli" occurring in mixed case. -/
theorem is_testnet_spec_witness : is_testnet "GoerliNet" = true :=
  is_testnet_spec.1 "goerli" (by decide) "GoerliNet" (by decide)

/-! ### C8: auto-tagging -/

/-- Claim C8: the swap-service example is tagged "trading", the unmatched
example yields exactly `["other"]`, and whenever no keyword of the category
table occurs in the lowercased URL-plus-description text the result is exactly
`["other"]`. -/
theorem detect_tags_spec :
    "trading" ∈ detect_tags "https://x.com/api/swap" "Token swap service" ∧
    detect_tags "https://example.com/foo" "" = ["other"] ∧
    (∀ url desc : String,
      (∀ pair ∈ TAG_KEYWORDS, ∀ kw ∈ pair.2,
        hasSub kw.data (tagText url desc) = false) →
      detect_tags url desc = ["other"]) := by
  refine ⟨by decide, by decide, ?_⟩
  intro url desc h
  unfold detect_tags
  have hnil :
      (TAG_KEYWORDS.filter fun p =>
        p.2.any fun kw => hasSub kw.data (tagText url desc)) = [] := by
    rw [List.filter_eq_nil_iff]
    intro pair hpair
    simp only [List.any_eq_true, not_exists, not_and]
    rintro kw hkw
    simp [h pair hpair kw hkw]
  simp [hnil]

/-- Claim C8 witness: the no-keyword hypothesis holds for the unmatched
example. -/
theorem detect_tags_spec_witness :
    detect_tags "https://example.com/foo" "" = ["other"] :=
  detect_tags_spec.2.2 "https://example.com/foo" "" (by decide)

/-! ### C6: USD price derivation -/

/-- Claim C6: `price_usd` is exactly `int(max_amount_required) / 1_000_000`
("1000000" gives exactly 1, "1500000" exactly 3/2), and an unparsable
`max_amount_required` leaves the price unset while the accept row is still
produced with all its other columns intact. -/
theorem price_usd_spec :
    (∀ a : AcceptIn,
      (buildAcceptRow a).price_usd =
        (pyInt (pyGetStr a.maxAmountRequired "0")).map fun n => (n : ℚ) / 1000000) ∧
    (∀ a : AcceptIn, a.maxAmountRequired = some "1000000" →
      (buildAcceptRow a).price_usd = some 1) ∧
    (∀ a : AcceptIn, a.maxAmountRequired = some "1500000" →
      (buildAcceptRow a).price_usd = some (3 / 2)) ∧
    (∀ a : AcceptIn, pyInt (pyGetStr a.maxAmountRequired "0") = none →
      (buildAcceptRow a).price_usd = none ∧
      (buildAcceptRow a).scheme = pyGetStr a.scheme "exact" ∧
      (buildAcceptRow a).network = pyGetStr a.network "" ∧
      (buildAcceptRow a).asset = pyGetStr a.asset "" ∧
      (buildAcceptRow a).asset_name = deriveAssetName a ∧
      (buildAcceptRow a).pay_to = pyGetStr a.payTo "" ∧
      (buildAcceptRow a).max_amount_required = pyGetStr a.maxAmountRequired "0" ∧
      (buildAcceptRow a).max_timeout_seconds = a.maxTimeoutSeconds.getD 300) := by
  have hmap : ∀ a : AcceptIn,
      (buildAcceptRow a).price_usd =
        (pyInt (pyGetStr a.maxAmountRequired "0")).map fun n => (n : ℚ) / 1000000 := by
    intro a
    unfold buildAcceptRow
    cases h : pyInt (pyGetStr a.maxAmountRequired "0") <;> simp [h]
  refine ⟨hmap, ?_, ?_, ?_⟩
  · intro a h
    rw [hmap a, h]
    show ((pyInt "1000000").map fun n => (n : ℚ) / 1000000) = some 1
    have hp : pyInt "1000000" = some 1000000 := by decide
    rw [hp]
    norm_num
  · intro a h
    rw [hmap a, h]
    show ((pyInt "1500000").map fun n => (n : ℚ) / 1000000) = some (3 / 2)
    have hp : pyInt "1500000" = some 1500000 := by decide
    rw [hp]
    norm_num
  · intro a h
    refine ⟨by rw [hmap a, h]; rfl, ?_⟩
    unfold buildAcceptRow
    rw [h]
    exact ⟨rfl, rfl, rfl, rfl, rfl, rfl, rfl⟩

/-- Claim C6 witness: the "1500000" accept and an unparsable "abc" accept. -/
theorem price_usd_spec_witness :
    (buildAcceptRow ⟨none, none, none, none, some "1500000", none, none⟩).price_usd =
      some (3 / 2) ∧
    ((buildAcceptRow ⟨some "exact", some "base", none, none, some "abc", none,
        none⟩).price_usd = none ∧
      (buildAcceptRow ⟨some "exact", some "base", none, none, some "abc", none,
        none⟩).scheme = pyGetStr (some "exact") "exact" ∧
      (buildAcceptRow ⟨some "exact", some "base", none, none, some "abc", none,
        none⟩).network = pyGetStr (some "base") "" ∧
      (buildAcceptRow ⟨some "exact", some "base", none, none, some "abc", none,
        none⟩).asset = pyGetStr none "" ∧
      (buildAcceptRow ⟨some "exact", some "base", none, none, some "abc", none,
        none⟩).asset_name =
        deriveAssetName ⟨some "exact", some "base", none, none, some "abc", none, none⟩ ∧
      (buildAcceptRow ⟨some "exact", some "base", none, none, some "abc", none,
        none⟩).pay_to = pyGetStr none "" ∧
      (buildAcceptRow ⟨some "exact", some "base", none, none, some "abc", none,
        none⟩).max_amount_required = pyGetStr (some "abc") "0" ∧
      (buildAcceptRow ⟨some "exact", some "base", none, none, some "abc", none,
        none⟩).max_timeout_seconds = Option.getD none 300) :=
  ⟨price_usd_spec.2.2.1 ⟨none, none, none, none, some "1500000", none, none⟩ rfl,
   price_usd_spec.2.2.2 ⟨some "exact", some "base", none, none, some "abc", none, none⟩
     (by decide)⟩

/-! ### C1: pagination retry behaviour under persistent HTTP 429 -/

/-- Claim C1 (refuted — code bug): against a facilitator that answers HTTP 429
to every request, `fetch_with_pagination` never returns, however many requests
it is allowed: the source's 429 branch contains no return, so exhausting the
`for retry in range(max_retries)` loop falls back into the enclosing
`while True` loop, which restarts the same page with the retry counter reset.
The claimed behaviour — return the accumulated items after at most
`max_retries` retries — is what the sibling error branches implement and what
the `max_retries` parameter is for, so the missing return is a slip in the
code. -/
theorem fetch_diverges_on_persistent_429 (netloc : String → String) :
    ∀ fuel : Nat, fetch_with_pagination netloc always429 fuel = none := by
  have key : ∀ fuel reqIdx offset acc retry,
      fetchGo netloc always429 100 3 fuel reqIdx offset acc retry = none := by
    intro fuel
    induction fuel with
    | zero => intro _ _ _ _; rfl
    | succ n ih =>
      intro reqIdx offset acc retry
      show (if retry + 1 < 3 then
          fetchGo netloc always429 100 3 n (reqIdx + 1) offset acc (retry + 1)
        else fetchGo netloc always429 100 3 n (reqIdx + 1) offset acc 0) = none
      split
      · exact ih (reqIdx + 1) offset acc (retry + 1)
      · exact ih (reqIdx + 1) offset acc 0
  intro fuel
  exact key fuel 0 0 [] 0

/-! ### Deduplicator lemmas -/

/-- `updateSeen` grows the dict by at most one binding. -/
theorem updateSeen_length (seen : List (String × Item)) (url : String) (item : Item) :
    (updateSeen seen url item).length ≤ seen.length + 1 := by
  induction seen with
  | nil => simp [updateSeen]
  | cons hd tl ih =>
    obtain ⟨u, ex⟩ := hd
    simp only [updateSeen]
    split
    · split <;> simp
    · simp only [List.length_cons]
      omega

/-- The dedup loop adds at most one binding per input item. -/
theorem dedupLoop_length (l : List Item) :
    ∀ seen, (dedupLoop seen l).length ≤ seen.length + l.length := by
  induction l with
  | nil => intro seen; simp [dedupLoop]
  | cons it rest ih =>
    intro seen
    simp only [dedupLoop]
    split
    · have h := ih seen
      simp only [List.length_cons]
      omega
    · have h1 := ih (updateSeen seen it.resource it)
      have h2 := updateSeen_length seen it.resource it
      simp only [List.length_cons]
      omega

/-- Keys of the dict after `updateSeen`: unchanged on a known key, the new key
appended otherwise. -/
theorem updateSeen_fst (seen : List (String × Item)) (url : String) (item : Item) :
    (updateSeen seen url item).map Prod.fst =
      if url ∈ seen.map Prod.fst then seen.map Prod.fst
      else seen.map Prod.fst ++ [url] := by
  induction seen with
  | nil => simp [updateSeen]
  | cons hd tl ih =>
    obtain ⟨u, ex⟩ := hd
    by_cases hu : u = url
    · subst hu
      simp only [updateSeen]
      have hmem : u ∈ ((u, ex) :: tl).map Prod.fst := by simp
      rw [if_pos trivial, if_pos hmem]
      split <;> simp
    · simp only [updateSeen, if_neg hu, List.map_cons]
      rw [ih]
      by_cases hm : url ∈ tl.map Prod.fst
      · rw [if_pos hm, if_pos (by simp [hm])]
      · rw [if_neg hm,
          if_neg (by simp only [List.map_cons, List.mem_cons]
                     push_neg
                     exact ⟨fun e => hu e.symm, hm⟩)]
        simp

/-- Every binding of the dict maps a nonempty key to an item whose resource is
that key, and `updateSeen` preserves this. -/
theorem updateSeen_inv (seen : List (String × Item)) (url : String) (item : Item)
    (hres : item.resource = url) (hurl : url ≠ "")
    (hinv : ∀ p ∈ seen, p.2.resource = p.1 ∧ p.1 ≠ "") :
    ∀ p ∈ updateSeen seen url item, p.2.resource = p.1 ∧ p.1 ≠ "" := by
  induction seen with
  | nil =>
    intro p hp
    simp only [updateSeen, List.mem_singleton] at hp
    subst hp
    exact ⟨hres, hurl⟩
  | cons hd tl ih =>
    obtain ⟨u, ex⟩ := hd
    intro p hp
    simp only [updateSeen] at hp
    by_cases hu : u = url
    · rw [if_pos hu] at hp
      by_cases hgt : strGt item.lastUpdated ex.lastUpdated
      · rw [if_pos hgt] at hp
        rcases List.mem_cons.mp hp with h | h
        · subst h
          exact ⟨by rw [hu]; exact hres, by rw [hu]; exact hurl⟩
        · exact hinv p (List.mem_cons_of_mem _ h)
      · rw [if_neg hgt] at hp
        rcases List.mem_cons.mp hp with h | h
        · subst h
          exact hinv (u, ex) (by simp)
        · exact hinv p (List.mem_cons_of_mem _ h)
    · rw [if_neg hu] at hp
      rcases List.mem_cons.mp hp with h | h
      · subst h
        exact hinv (u, ex) (by simp)
      · exact ih (fun q hq => hinv q (List.mem_cons_of_mem _ hq)) p h

/-- `updateSeen` keeps the keys duplicate-free. -/
theorem updateSeen_nodup (seen : List (String × Item)) (url : String) (item : Item)
    (h : (seen.map Prod.fst).Nodup) :
    ((updateSeen seen url item).map Prod.fst).Nodup := by
  rw [updateSeen_fst]
  split
  · exact h
  · rename_i hm
    rw [List.nodup_append]
    refine ⟨h, List.nodup_singleton _, ?_⟩
    intro a ha hb
    simp only [List.mem_singleton] at hb
    subst hb
    exact hm ha

/-- A fresh key is appended at the end of the dict. -/
theorem updateSeen_notMem (seen : List (String × Item)) (url : String) (item : Item)
    (h : url ∉ seen.map Prod.fst) :
    updateSeen seen url item = seen ++ [(url, item)] := by
  induction seen with
  | nil => rfl
  | cons hd tl ih =>
    obtain ⟨u, ex⟩ := hd
    have hu : u ≠ url := by
      intro e
      exact h (by simp [e])
    simp only [updateSeen, if_neg hu, List.cons_append]
    congr 1
    exact ih fun hm => h (by simp [hm])

/-- The dedup loop preserves the dict invariant. -/
theorem dedupLoop_inv (l : List Item) :
    ∀ seen : List (String × Item),
      (∀ p ∈ seen, p.2.resource = p.1 ∧ p.1 ≠ "") →
      (seen.map Prod.fst).Nodup →
      (∀ p ∈ dedupLoop seen l, p.2.resource = p.1 ∧ p.1 ≠ "") ∧
        ((dedupLoop seen l).map Prod.fst).Nodup := by
  induction l with
  | nil => intro seen h1 h2; exact ⟨h1, h2⟩
  | cons it rest ih =>
    intro seen h1 h2
    by_cases hr : it.resource = ""
    · simp only [dedupLoop, if_pos hr]
      exact ih seen h1 h2
    · simp only [dedupLoop, if_neg hr]
      exact ih _ (updateSeen_inv seen it.resource it rfl hr h1)
        (updateSeen_nodup seen it.resource it h2)

/-- Every item in the dedup output has a nonempty resource URL. -/
theorem dedup_mem_resource_ne (l : List Item) :
    ∀ it ∈ deduplicate_resources l, it.resource ≠ "" := by
  intro it hit
  obtain ⟨p, hp, rfl⟩ := List.mem_map.mp hit
  obtain ⟨he, hn⟩ := (dedupLoop_inv l [] (by simp) (by simp)).1 p hp
  rw [he]
  exact hn

/-- The dedup output carries pairwise distinct resource URLs. -/
theorem dedup_resources_nodup (l : List Item) :
    ((deduplicate_resources l).map Item.resource).Nodup := by
  have h := dedupLoop_inv l [] (by simp) (by simp)
  show (((dedupLoop [] l).map Prod.snd).map Item.resource).Nodup
  rw [List.map_map]
  have heq : (dedupLoop [] l).map (Item.resource ∘ Prod.snd) =
      (dedupLoop [] l).map Prod.fst :=
    List.map_congr_left fun p hp => (h.1 p hp).1
  rw [heq]
  exact h.2

/-- Feeding a list of items with pairwise distinct nonempty resources into the
loop appends them all verbatim. -/
theorem dedupLoop_fresh (l : List Item) :
    ∀ seen : List (String × Item),
      (∀ it ∈ l, it.resource ≠ "") →
      (l.map Item.resource).Nodup →
      (∀ it ∈ l, it.resource ∉ seen.map Prod.fst) →
      dedupLoop seen l = seen ++ l.map fun it => (it.resource, it) := by
  induction l with
  | nil => intro seen _ _ _; simp [dedupLoop]
  | cons it rest ih =>
    intro seen hne hnd hfresh
    have hr : it.resource ≠ "" := hne it (by simp)
    have hnd2 : (it.resource :: rest.map Item.resource).Nodup := by
      simpa using hnd
    simp only [dedupLoop, if_neg hr]
    rw [updateSeen_notMem seen it.resource it (hfresh it (by simp))]
    rw [ih (seen ++ [(it.resource, it)])
      (fun x hx => hne x (by simp [hx]))
      (List.nodup_cons.mp hnd2).2
      ?_]
    · simp
    · intro x hx
      simp only [List.map_append, List.mem_append]
      push_neg
      refine ⟨hfresh x (by simp [hx]), ?_⟩
      simp only [List.map_cons, List.map_nil, List.mem_singleton]
      intro e
      exact (List.nodup_cons.mp hnd2).1 (by
        rw [← e]
        exact List.mem_map_of_mem Item.resource hx)

/-- Lookup after `updateSeen`: the touched key now holds the `pickStep` of its
previous value, other keys are untouched. -/
theorem lookupKey_updateSeen (seen : List (String × Item)) (url url2 : String)
    (item : Item) :
    lookupKey (updateSeen seen url item) url2 =
      if url2 = url then pickStep (lookupKey seen url) item
      else lookupKey seen url2 := by
  induction seen with
  | nil =>
    by_cases h : url2 = url
    · simp [updateSeen, lookupKey, pickStep, h]
    · simp [updateSeen, lookupKey, h, Ne.symm h]
  | cons hd tl ih =>
    obtain ⟨u, ex⟩ := hd
    by_cases hu : u = url
    · subst hu
      simp only [updateSeen, if_pos trivial]
      by_cases hgt : strGt item.lastUpdated ex.lastUpdated
      · rw [if_pos hgt]
        by_cases h2 : url2 = u
        · subst h2
          simp [lookupKey, pickStep, keepNewer, hgt]
        · simp [lookupKey, h2, Ne.symm h2]
      · rw [if_neg hgt]
        by_cases h2 : url2 = u
        · subst h2
          simp [lookupKey, pickStep, keepNewer, hgt]
        · simp [lookupKey, h2, Ne.symm h2]
    · have hl : lookupKey ((u, ex) :: tl) url = lookupKey tl url := by
        simp [lookupKey, hu]
      simp only [updateSeen, if_neg hu]
      by_cases hA : u = url2
      · have hne : url2 ≠ url := fun e => hu (hA.trans e)
        simp [lookupKey, hA, hne]
      · simp [lookupKey, hA, ih, hu]

/-- The value the dedup loop leaves under a nonempty key is the left fold of
`pickStep` over the input items carrying that resource URL. -/
theorem lookupKey_dedupLoop (url : String) (hurl : url ≠ "") (l : List Item) :
    ∀ seen : List (String × Item),
      lookupKey (dedupLoop seen l) url =
        (l.filter fun it => it.resource == url).foldl pickStep
          (lookupKey seen url) := by
  induction l with
  | nil => intro seen; rfl
  | cons it rest ih =>
    intro seen
    by_cases hr : it.resource = ""
    · rw [List.filter_cons_of_neg (by rw [hr]; simp [Ne.symm hurl])]
      simp only [dedupLoop, if_pos hr]
      exact ih seen
    · simp only [dedupLoop, if_neg hr]
      rw [ih (updateSeen seen it.resource it)]
      rw [lookupKey_updateSeen seen it.resource url it]
      by_cases he : it.resource = url
      · rw [List.filter_cons_of_pos (by simp [he]), List.foldl_cons,
          if_pos he.symm, he]
      · rw [List.filter_cons_of_neg (by simp [he]), if_neg fun e => he e.symm]

/-- Filtering the dict's values for one resource URL yields exactly the value
stored under that key, given the dict invariant. -/
theorem filter_map_snd_eq_lookup (url : String) (s : List (String × Item))
    (hinv : ∀ p ∈ s, p.2.resource = p.1) (hnd : (s.map Prod.fst).Nodup) :
    (s.map Prod.snd).filter (fun it => it.resource == url) =
      (lookupKey s url).toList := by
  induction s with
  | nil => rfl
  | cons hd tl ih =>
    obtain ⟨u, ex⟩ := hd
    have hex : ex.resource = u := hinv (u, ex) (by simp)
    have hnotin : u ∉ tl.map Prod.fst := by
      simp only [List.map_cons, List.nodup_cons] at hnd
      exact hnd.1
    have htl : (tl.map Prod.fst).Nodup := by
      simp only [List.map_cons, List.nodup_cons] at hnd
      exact hnd.2
    by_cases hu : u = url
    · have hfil : (tl.map Prod.snd).filter (fun it => it.resource == url) = [] := by
        rw [List.filter_eq_nil_iff]
        intro it hit
        obtain ⟨p, hp, rfl⟩ := List.mem_map.mp hit
        rw [hinv p (by simp [hp])]
        have hne : p.1 ≠ url := by
          intro e
          refine hnotin ?_
          rw [← hu, ← e] at *
          exact List.mem_map_of_mem Prod.fst hp
        simp [hne]
      simp only [List.map_cons]
      rw [List.filter_cons_of_pos (by simp [hex, hu]), hfil]
      simp [lookupKey, hu]
    · simp only [List.map_cons]
      rw [List.filter_cons_of_neg (by simp [hex, hu])]
      rw [ih (fun p hp => hinv p (by simp [hp])) htl]
      simp [lookupKey, hu]

/-- Dropping the falsy-resource items before the loop changes nothing. -/
theorem dedupLoop_filter (l : List Item) :
    ∀ seen, dedupLoop seen (l.filter fun it => it.resource != "") =
      dedupLoop seen l := by
  induction l with
  | nil => intro seen; rfl
  | cons it rest ih =>
    intro seen
    by_cases hr : it.resource = ""
    · rw [List.filter_cons_of_neg (by simp [hr]), ih seen]
      simp [dedupLoop, hr]
    · rw [List.filter_cons_of_pos (by simp [hr])]
      simp only [dedupLoop, if_neg hr]
      exact ih (updateSeen seen it.resource it)

/-! ### C4, C5, C10: deduplicator claims -/

/-- Claim C4: for every input list and every nonempty resource URL, the dedup
output's items carrying that URL are exactly the per-URL winner — the fold of
"keep the listing whose `lastUpdated` string compares greater, first-seen wins
ties" over the input's listings with that URL, in input order. -/
theorem dedup_keeps_newer (l : List Item) (url : String) (hurl : url ≠ "") :
    (deduplicate_resources l).filter (fun it => it.resource == url) =
      (winner url l).toList := by
  have hinv := dedupLoop_inv l [] (by simp) (by simp)
  show ((dedupLoop [] l).map Prod.snd).filter (fun it => it.resource == url) = _
  rw [filter_map_snd_eq_lookup url (dedupLoop [] l)
    (fun p hp => (hinv.1 p hp).1) hinv.2]
  rw [lookupKey_dedupLoop url hurl l []]
  rfl

/-- Claim C4 witness: two facilitators advertise the same URL with
`lastUpdated` "2024-01-01" and "2024-01-02"; the later one is kept. -/
theorem dedup_keeps_newer_witness :
    winner "https://svc.example/api/run"
        [⟨"https://svc.example/api/run", "2024-01-01", "a"⟩,
         ⟨"https://svc.example/api/run", "2024-01-02", "b"⟩] =
      some ⟨"https://svc.example/api/run", "2024-01-02", "b"⟩ ∧
    (deduplicate_resources
        [⟨"https://svc.example/api/run", "2024-01-01", "a"⟩,
         ⟨"https://svc.example/api/run", "2024-01-02", "b"⟩]).filter
        (fun it => it.resource == "https://svc.example/api/run") =
      (winner "https://svc.example/api/run"
        [⟨"https://svc.example/api/run", "2024-01-01", "a"⟩,
         ⟨"https://svc.example/api/run", "2024-01-02", "b"⟩]).toList :=
  ⟨by decide,
   dedup_keeps_newer
     [⟨"https://svc.example/api/run", "2024-01-01", "a"⟩,
      ⟨"https://svc.example/api/run", "2024-01-02", "b"⟩]
     "https://svc.example/api/run" (by decide)⟩

/-- Claim C5: the dedup output never has more items than the input, and
deduplicating an already-deduplicated list returns it unchanged. -/
theorem dedup_size_and_idempotent (l : List Item) :
    (deduplicate_resources l).length ≤ l.length ∧
    deduplicate_resources (deduplicate_resources l) = deduplicate_resources l := by
  constructor
  · have h := dedupLoop_length l []
    simpa [deduplicate_resources] using h
  · have hne := dedup_mem_resource_ne l
    have hnd := dedup_resources_nodup l
    have hkey := dedupLoop_fresh (deduplicate_resources l) [] hne hnd (by simp)
    have hstep : deduplicate_resources (deduplicate_resources l) =
        ((deduplicate_resources l).map fun it => (it.resource, it)).map Prod.snd := by
      show (dedupLoop [] (deduplicate_resources l)).map Prod.snd = _
      rw [hkey]
      simp
    rw [hstep, List.map_map]
    exact List.map_id'' (fun x => rfl) _

/-- Claim C10: items whose resource URL is missing or empty are dropped by the
deduplicator — the output contains only items with a nonempty resource URL,
and removing such items from the input beforehand leaves the output
unchanged. -/
theorem dedup_drops_empty_resources (l : List Item) :
    (∀ it ∈ deduplicate_resources l, it.resource ≠ "") ∧
    deduplicate_resources (l.filter fun it => it.resource != "") =
      deduplicate_resources l := by
  refine ⟨dedup_mem_resource_ne l, ?_⟩
  show (dedupLoop [] (l.filter fun it => it.resource != "")).map Prod.snd = _
  rw [dedupLoop_filter l []]
  rfl

/-- Claim C10 witness: an item with empty resource vanishes and one with a
nonempty resource survives. -/
theorem dedup_drops_empty_resources_witness :
    (⟨"r", "", "q"⟩ : Item).resource ≠ "" ∧
    deduplicate_resources
        ([⟨"", "x", "p"⟩, ⟨"r", "", "q"⟩].filter fun it => it.resource != "") =
      deduplicate_resources [⟨"", "x", "p"⟩, ⟨"r", "", "q"⟩] :=
  ⟨(dedup_drops_empty_resources [⟨"", "x", "p"⟩, ⟨"r", "", "q"⟩]).1
      ⟨"r", "", "q"⟩ (by decide),
   (dedup_drops_empty_resources [⟨"", "x", "p"⟩, ⟨"r", "", "q"⟩]).2⟩

/-! ### C9: traction rollup frame condition -/

/-- Claim C9: the per-origin traction rollup fields are written only when the
run's aggregated transaction count is positive; an empty expected-price set or
a zero aggregate count leaves the origin row exactly as it was, and a positive
count with a nonempty price set writes the five rollup fields from the
aggregate, leaving the other columns unchanged. -/
theorem reconcile_frame (hasA hasH : Bool) (prices : List ℚ)
    (baseTr solTr : List Traction) (now : String) (origin : OriginRow) :
    (prices = [] →
      reconcileOrigin hasA hasH prices baseTr solTr now origin = origin) ∧
    ((aggTraction hasA hasH baseTr solTr).tx = 0 →
      reconcileOrigin hasA hasH prices baseTr solTr now origin = origin) ∧
    (prices ≠ [] → 0 < (aggTraction hasA hasH baseTr solTr).tx →
      reconcileOrigin hasA hasH prices baseTr solTr now origin =
        { origin with
            total_transactions := some (aggTraction hasA hasH baseTr solTr).tx
            total_volume_usd := some (aggTraction hasA hasH baseTr solTr).vol
            unique_buyers := some (aggTraction hasA hasH baseTr solTr).buyers.length
            last_transaction_at := (aggTraction hasA hasH baseTr solTr).last
            traction_updated_at := some now }) := by
  refine ⟨?_, ?_, ?_⟩
  · intro h
    simp [reconcileOrigin, h]
  · intro h
    by_cases hp : prices.isEmpty
    · simp [reconcileOrigin, hp]
    · simp [reconcileOrigin, hp, h]
  · intro h1 h2
    have hp : prices.isEmpty = false := by
      cases prices with
      | nil => exact absurd rfl h1
      | cons a t => rfl
    simp [reconcileOrigin, hp, h2]

/-- Claim C9 witness: an origin with no expected prices is untouched, and one
with an expected price and a matching aggregate of two transfers gets exactly
the aggregate written. -/
theorem reconcile_frame_witness :
    reconcileOrigin true false [] [⟨2, 3, ["b"], some "t"⟩] [] "n"
        ⟨"d", none, none, none, none, none⟩ =
      ⟨"d", none, none, none, none, none⟩ ∧
    reconcileOrigin true false [1] [⟨2, 3, ["b"], some "t"⟩] [] "n"
        ⟨"d", none, none, none, none, none⟩ =
      { (⟨"d", none, none, none, none, none⟩ : OriginRow) with
          total_transactions :=
            some (aggTraction true false [⟨2, 3, ["b"], some "t"⟩] []).tx
          total_volume_usd :=
            some (aggTraction true false [⟨2, 3, ["b"], some "t"⟩] []).vol
          unique_buyers :=
            some (aggTraction true false [⟨2, 3, ["b"], some "t"⟩] []).buyers.length
          last_transaction_at :=
            (aggTraction true false [⟨2, 3, ["b"], some "t"⟩] []).last
          traction_updated_at := some "n" } :=
  ⟨(reconcile_frame true false [] [⟨2, 3, ["b"], some "t"⟩] [] "n"
      ⟨"d", none, none, none, none, none⟩).1 rfl,
   (reconcile_frame true false [1] [⟨2, 3, ["b"], some "t"⟩] [] "n"
      ⟨"d", none, none, none, none, none⟩).2.2 (by decide) (by decide)⟩

end X402
